import Mathlib

/-!
Verification development for the hand-built IRC client engine of this
repository (ircbot/irc.py together with loader/loader.py).  Python strings
are embedded as lists of characters; the relevant string methods
(`lstrip`, `rstrip`, `split`, `splitlines`) are translated directly from
their Python semantics.  Exceptions are embedded with `Except`: a Python
statement that can raise becomes a value of `Except PyErr _`.
-/

deriving instance DecidableEq for Except

namespace Irc

/-- Python strings, embedded as lists of characters. -/
abbrev PyStr := List Char

/-- The characters Python `str.split()` treats as whitespace: everything with
the Unicode whitespace property. -/
def isPySpace (c : Char) : Bool :=
  c = ' ' || c = '\t' || c = '\n' || c = '\r' || c = '\x0b' || c = '\x0c' ||
  c = '\x1c' || c = '\x1d' || c = '\x1e' || c = '\x1f' || c = '\x85' || c = '\xa0' ||
  c = '\u1680' || ('\u2000' ≤ c && c ≤ '\u200a') || c = '\u2028' || c = '\u2029' ||
  c = '\u202f' || c = '\u205f' || c = '\u3000'

/-- Python `s.lstrip(cs)`: remove every leading character belonging to the set `cs`. -/
def lstripSet (cs : PyStr) : PyStr → PyStr
  | [] => []
  | c :: rest => if cs.contains c then lstripSet cs rest else c :: rest

/-- Python `s.rstrip(cs)`: remove every trailing character belonging to the set `cs`. -/
def rstripSet (cs : PyStr) (s : PyStr) : PyStr :=
  (lstripSet cs s.reverse).reverse

/-- Does `pre` occur at the start of `s`?  (Python substring test at position 0.) -/
def beginsWith : PyStr → PyStr → Bool
  | [], _ => true
  | _ :: _, [] => false
  | a :: xs, b :: ys => a = b && beginsWith xs ys

/-- Python `s.split(sep, 1)` for a one-character separator: the part before the
first occurrence of `t`, and the part after it (`none` when `t` is absent,
in which case Python would return the whole string as a single piece). -/
def splitOnFirstChar (t : Char) : PyStr → PyStr × Option PyStr
  | [] => ([], none)
  | c :: rest =>
    if c = t then ([], some rest)
    else
      let r := splitOnFirstChar t rest
      (c :: r.1, r.2)

/-- Python `s.split(sep, 1)` for a multi-character separator `sep`
(used with the separator that introduces a trailing body, the two characters of " :"). -/
def splitOnFirstSub (sep : PyStr) : PyStr → PyStr × Option PyStr
  | [] => ([], none)
  | c :: rest =>
    if beginsWith sep (c :: rest) then ([], some ((c :: rest).drop sep.length))
    else
      let r := splitOnFirstSub sep rest
      (c :: r.1, r.2)

/-- Helper for `pySplit`: accumulates the current token in reverse. -/
def pySplitAux : PyStr → PyStr → List PyStr
  | acc, [] => if acc.isEmpty then [] else [acc.reverse]
  | acc, c :: rest =>
    if isPySpace c then
      if acc.isEmpty then pySplitAux [] rest
      else acc.reverse :: pySplitAux [] rest
    else pySplitAux (c :: acc) rest

/-- Python `s.split()` with no arguments: split on runs of whitespace,
discarding empty tokens. -/
def pySplit (s : PyStr) : List PyStr := pySplitAux [] s

/-- Python `s.split(maxsplit = 1)`: at most one split, on a leading run of
whitespace after the first token; a remainder that is all whitespace is dropped. -/
def pySplitMax1 (s : PyStr) : List PyStr :=
  let s1 := s.dropWhile isPySpace
  if s1.isEmpty then []
  else
    let tok := s1.takeWhile (fun c => !(isPySpace c))
    let rest := (s1.dropWhile (fun c => !(isPySpace c))).dropWhile isPySpace
    if rest.isEmpty then [tok] else [tok, rest]

/-- The characters Python `str.splitlines` treats as line boundaries. -/
def isLineBreak (c : Char) : Bool :=
  c = '\n' || c = '\r' || c = '\x0b' || c = '\x0c' || c = '\x1c' ||
  c = '\x1d' || c = '\x1e' || c = '\x85' || c = '\u2028' || c = '\u2029'

/-- Helper for `splitlinesKeep`: accumulates the current line in reverse. -/
def splitlinesAux : PyStr → PyStr → List PyStr
  | acc, [] => if acc.isEmpty then [] else [acc.reverse]
  | acc, '\r' :: '\n' :: rest => (acc.reverse ++ ['\r', '\n']) :: splitlinesAux [] rest
  | acc, c :: rest =>
    if isLineBreak c then (acc.reverse ++ [c]) :: splitlinesAux [] rest
    else splitlinesAux (c :: acc) rest

/-- Python `s.splitlines(True)`: split into lines, keeping the terminators;
the two-character terminator CR LF counts as a single boundary. -/
def splitlinesKeep (s : PyStr) : List PyStr := splitlinesAux [] s

/-- The Python exceptions the embedded code can raise. -/
inductive PyErr where
  | indexError
  | valueError
  | keyError
  | attributeError
  | ircError
deriving DecidableEq

/-- The decomposed sender identity returned by `parseUser`
(the dict with keys Nick, Identified, Ident, Host). -/
structure User where
  nick : PyStr
  identified : Bool
  ident : PyStr
  host : PyStr
deriving DecidableEq

/-- The decoded event: the dict built by `Server.parseLine`, with one optional
field per key the various branches may set. -/
structure Event where
  type : PyStr
  server : Option PyStr := none
  channel : Option PyStr := none
  ctcp : Option Bool := none
  ctcpCommand : Option PyStr := none
  action : Option Bool := none
  user : Option User := none
  message : Option PyStr := none
deriving DecidableEq

/-- Embeds `re.match` of the compiled nick-mask pattern of irc.py line 24:
one or more non-newline characters, a literal exclamation mark, one or more
non-newline characters, a literal at sign, then at least one further
non-newline character (`match` only anchors at the start, so only one
trailing character is required). -/
def nickMaskMatches (s : PyStr) : Bool :=
  (List.range s.length).any fun p =>
    (List.range s.length).any fun q =>
      decide (1 ≤ p) && decide (p + 2 ≤ q) && decide (q + 1 < s.length) &&
      (s.getD p ' ' = '!') && (s.getD q ' ' = '@') &&
      !((s.take p).contains '\n') && !(((s.take q).drop (p + 1)).contains '\n') &&
      !(s.getD (q + 1) ' ' = '\n')

/-- Embeds `parseUser` (irc.py lines 49-61).  When the mask pattern matches,
split at the first exclamation mark, read the identified marker, strip every
leading tilde, then split at the first at sign; otherwise fall back to the
whole string as the nick.  Tuple unpacking of a one-element split is a
`ValueError`, indexing an empty string an `IndexError`. -/
def parseUser (fullMask : PyStr) : Except PyErr User :=
  if nickMaskMatches fullMask then
    match splitOnFirstChar '!' fullMask with
    | (_, none) => .error .valueError
    | (nickPart, some mask) =>
      match mask with
      | [] => .error .indexError
      | m0 :: _ =>
        let isId := decide (m0 = '~')
        let mask2 := if m0 = '~' then lstripSet ['~'] mask else mask
        match splitOnFirstChar '@' mask2 with
        | (_, none) => .error .valueError
        | (identPart, some hostPart) =>
          .ok { nick := nickPart, identified := isId, ident := identPart, host := hostPart }
  else
    .ok { nick := fullMask, identified := false, ident := [], host := [] }

/-- The space-delimited tokens before the body separator (irc.py lines 63-68):
strip leading colons, cut at the first occurrence of " :", split the front on
whitespace. -/
def lineTokens (line : PyStr) : List PyStr :=
  pySplit (splitOnFirstSub (" :".toList) (lstripSet [':'] line)).1

/-- The optional free-text body after the first " :" (irc.py lines 69-72);
the empty string when the separator is absent. -/
def lineBody (line : PyStr) : PyStr :=
  ((splitOnFirstSub (" :".toList) (lstripSet [':'] line)).2).getD []

/-- Embeds `Server.parseLine` (irc.py lines 46-141).  Each Python indexing
operation that can raise is translated to an explicit `.error`: `parts[0]`
and `parts[1]` on too-short token lists, `parts[2]` for channel targets,
`message[0]` on an empty body, and `ctcp[0]` on an empty split of a
stripped CTCP body.  A server ERROR line raises deliberately (line 85). -/
def parseLine (line : PyStr) : Except PyErr Event :=
  match (lineTokens line).get? 0 with
  | none => .error .indexError
  | some t0 =>
    if t0 = "PING".toList then
      .ok { type := "PING".toList, server := some (lineBody line) }
    else if t0 = "ERROR".toList then
      .error .ircError
    else
      match (lineTokens line).get? 1 with
      | none => .error .indexError
      | some t1 =>
        if t1 = "PRIVMSG".toList then
          match (lineTokens line).get? 2 with
          | none => .error .indexError
          | some t2 =>
            match t2 with
            | [] => .error .indexError
            | c2 :: _ =>
              match lineBody line with
              | [] => .error .indexError
              | mc :: mrest =>
                if mc = '\x01' ∧ (mc :: mrest).getLast? = some '\x01' then
                  match (pySplitMax1 (rstripSet ['\x01'] (lstripSet ['\x01'] (mc :: mrest)))).get? 0 with
                  | none => .error .indexError
                  | some cmd =>
                    match parseUser t0 with
                    | .error err => .error err
                    | .ok u =>
                      .ok { type := if c2 = '#' then "PUBMSG".toList else "PRIVMSG".toList,
                            channel := if c2 = '#' then some t2 else none,
                            ctcp := some true,
                            ctcpCommand := some cmd,
                            action := some (decide (cmd = "ACTION".toList)),
                            user := some u,
                            message := some (lstripSet [' '] (lstripSet cmd
                              (rstripSet ['\x01'] (lstripSet ['\x01'] (mc :: mrest))))) }
                else
                  match parseUser t0 with
                  | .error err => .error err
                  | .ok u =>
                    .ok { type := if c2 = '#' then "PUBMSG".toList else "PRIVMSG".toList,
                          channel := if c2 = '#' then some t2 else none,
                          ctcp := some false,
                          action := some false,
                          user := some u,
                          message := some (mc :: mrest) }
        else if t1 = "NOTICE".toList then
          match parseUser t0 with
          | .error err => .error err
          | .ok u => .ok { type := t1, user := some u, message := some (lineBody line) }
        else if t1 = "JOIN".toList then
          match parseUser t0 with
          | .error err => .error err
          | .ok u =>
            .ok { type := t1, user := some u,
                  channel := some (((lineTokens line).get? 2).getD (lineBody line)) }
        else if t1 = "PART".toList then
          match parseUser t0 with
          | .error err => .error err
          | .ok u =>
            match (lineTokens line).get? 2 with
            | none => .error .indexError
            | some t2 =>
              .ok { type := t1, user := some u, channel := some t2,
                    message := some (lineBody line) }
        else if t1 = "QUIT".toList then
          match parseUser t0 with
          | .error err => .error err
          | .ok u => .ok { type := t1, user := some u, message := some (lineBody line) }
        else
          .ok { type := t1 }

/-!
The line framer of `Server.readNetworkLoop` (irc.py lines 143-176): each
received chunk is split with `splitlines(True)`; a line whose final two
characters are CR LF is completed (trailing CR/LF stripped, the stored
leftover prepended, the leftover cleared), any other line is assigned to
the leftover variable.
-/

/-- Python `line[-2:] == chr(13) + chr(10)`. -/
def endsWithCRLF (l : PyStr) : Bool :=
  match l.reverse with
  | '\n' :: '\r' :: _ => true
  | _ => false

/-- Process the lines `splitlines(True)` produced for one chunk, threading the
leftover exactly as the loop body of irc.py lines 158-176 does (note the
assignment on line 176 replaces the leftover instead of appending to it). -/
def framerProcessLines (leftover : PyStr) : List PyStr → PyStr × List PyStr
  | [] => (leftover, [])
  | l :: ls =>
    if endsWithCRLF l then
      let out := leftover ++ rstripSet ['\r', '\n'] l
      let r := framerProcessLines [] ls
      (r.1, out :: r.2)
    else
      framerProcessLines l ls

/-- Feed one received chunk through the framer, given the stored leftover;
returns the new leftover and the completed lines in order. -/
def framerChunk (leftover : PyStr) (chunk : PyStr) : PyStr × List PyStr :=
  framerProcessLines leftover (splitlinesKeep chunk)

/-- Feed a sequence of chunks through the framer starting from an empty
leftover (the initialisation on irc.py line 147); collect every completed
line in order. -/
def framerRun (chunks : List PyStr) : List PyStr :=
  (chunks.foldl
    (fun acc ch =>
      let r := framerChunk acc.1 ch
      (r.1, acc.2 ++ r.2))
    (([] : PyStr), ([] : List PyStr))).2

/-!
The fate of one complete framed line.  `readNetworkLoop` calls `parseLine`
outside of any handler (irc.py line 171; the try on lines 166-169 only guards
the debug print), so an exception raised while decoding propagates out of
`readNetworkLoop`; `connect` (irc.py lines 39-43) catches every exception from
`readNetworkLoop` and re-establishes the connection.
-/

/-- What happens to one complete line fed to the read loop. -/
inductive LineFate where
  | dispatched (e : Event)
  | reconnect
deriving DecidableEq

/-- Decode one line as the read loop does: a decoded event is dispatched, any
decoding exception aborts `readNetworkLoop` and makes `connect` reconnect. -/
def lineFate (line : PyStr) : LineFate :=
  match parseLine line with
  | .ok e => .dispatched e
  | .error _ => .reconnect

/-!
The hook registry and dispatcher (irc.py lines 270-341).  Python dicts are
embedded as insertion-ordered association lists with unique keys; plugin
callbacks are abstracted by an index interpreted through a behaviour function
`runP`, while the one built-in PING callback (irc.py line 30) is embedded
concretely.  A callback either returns normally (with the raw lines it sent)
or raises.
-/

/-- A registered callback: the built-in PING hook, or an abstract plugin
callback identified by an index. -/
inductive Cb where
  | pingPong
  | plugin (idx : Nat)
deriving DecidableEq

/-- Lookup in an embedded Python dict. -/
def dictGet {α : Type} : List (PyStr × α) → PyStr → Option α
  | [], _ => none
  | p :: rest, k => if p.1 = k then some p.2 else dictGet rest k

/-- Python `d[k] = v`: replace in place when the key exists, else append. -/
def dictInsert {α : Type} (k : PyStr) (v : α) : List (PyStr × α) → List (PyStr × α)
  | [] => [(k, v)]
  | p :: rest => if p.1 = k then (p.1, v) :: rest else p :: dictInsert k v rest

/-- Python `del d[k]` on a dict with unique keys. -/
def removeKey {α : Type} (k : PyStr) : List (PyStr × α) → List (PyStr × α)
  | [] => []
  | p :: rest => if p.1 = k then removeKey k rest else p :: removeKey k rest

/-- Removal of a name from a key list (`del` on a dict whose values we do not track). -/
def removeName (k : PyStr) : List PyStr → List PyStr
  | [] => []
  | n :: rest => if n = k then removeName k rest else n :: removeName k rest

/-- The mutable server state the extensibility layer touches: `self.callbacks`
(event kind to name-to-callback dict), the keys of `self.callbackData`
(per-plugin storage cells, contents opaque), and the names in `sys.modules`. -/
structure ServerState where
  callbacks : List (PyStr × List (PyStr × Cb))
  callbackData : List PyStr
  modules : List PyStr
deriving DecidableEq

/-- Embeds `Server.addHook` (irc.py lines 270-278). -/
def addHook (st : ServerState) (cName cType : PyStr) (cCode : Cb) : ServerState :=
  let kindMap := match dictGet st.callbacks cType with
    | none => ([] : List (PyStr × Cb))
    | some m => m
  { st with
    callbacks := dictInsert cType (dictInsert cName cCode kindMap) st.callbacks,
    callbackData :=
      if st.callbackData.contains cName then st.callbackData
      else st.callbackData ++ [cName] }

/-- Embeds `Server.delHook` (irc.py lines 281-284): remove the name from every
kind's dict, keeping the kind keys themselves. -/
def delHook (st : ServerState) (name : PyStr) : ServerState :=
  { st with callbacks := st.callbacks.map (fun p => (p.1, removeKey name p.2)) }

/-- The state `Server.unload` leaves behind for an unprotected name. -/
def strippedState (st : ServerState) (name : PyStr) : ServerState :=
  let st1 := { st with modules := removeName name st.modules }
  let st2 := delHook st1 name
  { st2 with callbackData := removeName name st2.callbackData }

/-- Embeds `Server.unload` (irc.py lines 332-341): `name[0]` raises on an empty
name; a name beginning with the underscore marker is skipped entirely;
otherwise the module entry, every hook and the storage cell are removed. -/
def unload (st : ServerState) (name : PyStr) : Except PyErr ServerState :=
  match name with
  | [] => .error .indexError
  | c :: _ =>
    if c = '_' then .ok st
    else .ok (strippedState st name)

/-- The state built by `Server.__init__` (irc.py lines 17-30): empty registry
plus the one built-in PING hook registered under the unprefixed name PING. -/
def serverInit : ServerState :=
  addHook { callbacks := [], callbackData := [], modules := [] }
    ("PING".toList) ("PING".toList) Cb.pingPong

/-- Run one callback on one event.  The built-in PING hook sends
`PONG` followed by the server token (irc.py line 30); a PING event that lacks
the Server key makes that dict lookup raise.  Plugin callbacks behave as the
abstract `runP` prescribes: they either return the lines they sent or raise. -/
def runCb (runP : Nat → Event → Except Unit (List PyStr)) : Cb → Event → Except Unit (List PyStr)
  | .pingPong, e =>
    match e.server with
    | some srv => .ok [("PONG ".toList ++ srv)]
    | none => .error ()
  | .plugin n, e => runP n e

/-- What `Server.dispatch` records while running. -/
structure DispatchResult where
  state : ServerState
  invoked : List PyStr
  reported : List PyStr
  sends : List PyStr
deriving DecidableEq

/-- The failure arm of the dispatch loop body (irc.py lines 294-297): report
the callback failure, then unload the offending name.  An exception raised by
`unload` itself (empty name) propagates. -/
def failPath (inv : Bool) (st : ServerState) (name : PyStr) :
    Except PyErr (ServerState × Bool × Bool × List PyStr) :=
  match unload st name with
  | .error err => .error err
  | .ok st2 => .ok (st2, inv, true, [])

/-- One iteration of the dispatch loop (irc.py lines 291-297): look up the
callback and the storage cell in the current dicts, run the callback; any
exception inside the try is caught and handled by `failPath`. -/
def dispatchStep (runP : Nat → Event → Except Unit (List PyStr)) (e : Event)
    (name : PyStr) (st : ServerState) :
    Except PyErr (ServerState × Bool × Bool × List PyStr) :=
  match dictGet st.callbacks e.type with
  | none => failPath false st name
  | some m =>
    match dictGet m name with
    | none => failPath false st name
    | some cb =>
      if st.callbackData.contains name then
        match runCb runP cb e with
        | .ok snd => .ok (st, true, false, snd)
        | .error _ => failPath true st name
      else failPath false st name

/-- The dispatch loop over the snapshot of names (irc.py lines 290-297). -/
def dispatchLoop (runP : Nat → Event → Except Unit (List PyStr)) (e : Event) :
    List PyStr → ServerState → Except PyErr DispatchResult
  | [], st => .ok ⟨st, [], [], []⟩
  | n :: ns, st =>
    match dispatchStep runP e n st with
    | .error err => .error err
    | .ok (st2, inv, rep, snd) =>
      match dispatchLoop runP e ns st2 with
      | .error err => .error err
      | .ok res =>
        .ok ⟨res.state,
             (if inv then [n] else []) ++ res.invoked,
             (if rep then [n] else []) ++ res.reported,
             snd ++ res.sends⟩

/-- Embeds `Server.dispatch` (irc.py lines 286-297): when the event kind has a
dict of callbacks, snapshot its names and run the loop. -/
def dispatch (runP : Nat → Event → Except Unit (List PyStr)) (st : ServerState)
    (e : Event) : Except PyErr DispatchResult :=
  match dictGet st.callbacks e.type with
  | none => .ok ⟨st, [], [], []⟩
  | some m => dispatchLoop runP e (m.map (fun p => p.1)) st

/-!
The plugin loader, `Server.load` (irc.py lines 299-330).  An imported module
is embedded as a record of its optional attributes: a `none` field stands for
a missing attribute, whose access raises `AttributeError`.  The outcome of
`importlib.import_module` is a parameter: `none` stands for an
`ImportError`, the only exception the import step catches.
-/

/-- The duck-typed shape of an imported plugin module.  The `init` field:
`none` means the module has no init attribute; `some none` an initializer
that returns normally; `some (some err)` an initializer that raises `err`. -/
structure PyModule where
  mname : Option PyStr
  types : Option (List PyStr)
  hookCode : Option Cb
  init : Option (Option PyErr)

/-- The diagnostic messages `load` prints. -/
inductive Report where
  | alreadyLoaded
  | importFail
  | missingValues
  | loadedOk
  | initFail
deriving DecidableEq

/-- The outcome of a `load` call that returned without raising. -/
structure LoadOut where
  state : ServerState
  reports : List Report
deriving DecidableEq

/-- The initializer step of `Server.load` (irc.py lines 322-330): a missing
init attribute is an `AttributeError` that `pass` swallows — as is an
`AttributeError` raised inside the initializer itself; looking up the storage
cell under the load-time argument name raises `KeyError` when absent; any
other exception is reported and triggers an automatic unload. -/
def loadInitStep (st : ServerState) (reps : List Report) (m : PyModule)
    (argName : PyStr) : Except PyErr LoadOut :=
  match m.init with
  | none => .ok ⟨st, reps⟩
  | some behaviour =>
    if st.callbackData.contains argName then
      match behaviour with
      | none => .ok ⟨st, reps⟩
      | some .attributeError => .ok ⟨st, reps⟩
      | some _ =>
        match unload st argName with
        | .error err => .error err
        | .ok st2 => .ok ⟨st2, reps ++ [.initFail]⟩
    else
      match unload st argName with
      | .error err => .error err
      | .ok st2 => .ok ⟨st2, reps ++ [.initFail]⟩

/-- Embeds `Server.load` (irc.py lines 299-330), following the source line by
line: unload first when the name is already imported; an `ImportError`
is reported and ends the call; the hook-registration loop accesses
`module.types`, `module.name` and `module.hookCode`, and its
`except AttributeError` handler itself accesses `module.name` (line 317)
before reporting; nothing in that handler returns, so control always reaches
the log line 320, which accesses `module.types` again; finally the
initializer step runs. -/
def load (st0 : ServerState) (argName : PyStr) (imp : Option PyModule) :
    Except PyErr LoadOut :=
  let pre : Except PyErr (ServerState × List Report) :=
    if st0.modules.contains argName then
      match unload st0 argName with
      | .error err => .error err
      | .ok s => .ok (s, [.alreadyLoaded])
    else .ok (st0, [])
  match pre with
  | .error err => .error err
  | .ok (st1, r1) =>
    match imp with
    | none => .ok ⟨st1, r1 ++ [.importFail]⟩
    | some m =>
      let st1b :=
        { st1 with modules := if st1.modules.contains argName then st1.modules
                              else st1.modules ++ [argName] }
      match m.types with
      | none =>
        match m.mname with
        | none => .error .attributeError
        | some mn =>
          match unload st1b mn with
          | .error err => .error err
          | .ok _ => .error .attributeError
      | some tys =>
        if tys.isEmpty then
          loadInitStep st1b (r1 ++ [.loadedOk]) m argName
        else
          match m.mname with
          | none => .error .attributeError
          | some mn =>
            match m.hookCode with
            | none =>
              match unload st1b mn with
              | .error err => .error err
              | .ok st2 => loadInitStep st2 (r1 ++ [.missingValues, .loadedOk]) m argName
            | some cb =>
              let st2 := tys.foldl (fun s t => addHook s mn t cb) st1b
              loadInitStep st2 (r1 ++ [.loadedOk]) m argName

/-! Lemmas about the embedded dict operations. -/

theorem dictGet_removeKey_self {α : Type} (m : List (PyStr × α)) (k : PyStr) :
    dictGet (removeKey k m) k = none := by
  induction m with
  | nil => rfl
  | cons p rest ih =>
    by_cases h : p.1 = k
    · simp [removeKey, h, ih]
    · simp [removeKey, dictGet, h, ih]

theorem dictGet_removeKey_ne {α : Type} (m : List (PyStr × α)) {k z : PyStr} (h : z ≠ k) :
    dictGet (removeKey k m) z = dictGet m z := by
  induction m with
  | nil => rfl
  | cons p rest ih =>
    by_cases h1 : p.1 = k
    · have h2 : ¬ p.1 = z := by rw [h1]; exact fun hh => h hh.symm
      rw [removeKey, if_pos h1, ih, dictGet, if_neg h2]
    · by_cases h2 : p.1 = z
      · rw [removeKey, if_neg h1, dictGet, if_pos h2, dictGet, if_pos h2]
      · rw [removeKey, if_neg h1, dictGet, if_neg h2, dictGet, if_neg h2, ih]

theorem dictGet_removeKey_none {α : Type} {m : List (PyStr × α)} {x : PyStr} (n : PyStr)
    (h : dictGet m x = none) : dictGet (removeKey n m) x = none := by
  by_cases hxn : x = n
  · rw [hxn]; exact dictGet_removeKey_self m n
  · rw [dictGet_removeKey_ne m hxn]; exact h

theorem mem_removeKey {α : Type} {m : List (PyStr × α)} {k : PyStr} {q : PyStr × α}
    (h : q ∈ removeKey k m) : q ∈ m ∧ q.1 ≠ k := by
  induction m with
  | nil => simp [removeKey] at h
  | cons p rest ih =>
    by_cases h1 : p.1 = k
    · rw [removeKey, if_pos h1] at h
      exact ⟨List.mem_cons_of_mem p (ih h).1, (ih h).2⟩
    · rw [removeKey, if_neg h1] at h
      rcases List.mem_cons.mp h with h2 | h2
      · refine ⟨by rw [h2]; exact List.mem_cons_self p rest, by rw [h2]; exact h1⟩
      · exact ⟨List.mem_cons_of_mem p (ih h2).1, (ih h2).2⟩

theorem dictGet_mem {α : Type} {m : List (PyStr × α)} {k : PyStr} {v : α}
    (h : dictGet m k = some v) : (k, v) ∈ m := by
  induction m with
  | nil => simp [dictGet] at h
  | cons p rest ih =>
    by_cases h1 : p.1 = k
    · rw [dictGet, if_pos h1] at h
      have h2 : p = (k, v) := by
        rcases p with ⟨a, b⟩
        simp at h1
        simp at h
        exact congrArg₂ Prod.mk h1 h
      rw [← h2]; exact List.mem_cons_self p rest
    · rw [dictGet, if_neg h1] at h
      exact List.mem_cons_of_mem p (ih h)

theorem mem_removeName {l : List PyStr} {k z : PyStr} (h1 : z ∈ l) (h2 : z ≠ k) :
    z ∈ removeName k l := by
  induction l with
  | nil => simp at h1
  | cons n rest ih =>
    by_cases h3 : n = k
    · rw [removeName, if_pos h3]
      rcases List.mem_cons.mp h1 with h4 | h4
      · exact absurd (h4.trans h3) h2
      · exact ih h4
    · rw [removeName, if_neg h3]
      rcases List.mem_cons.mp h1 with h4 | h4
      · rw [h4]; exact List.mem_cons_self n _
      · exact List.mem_cons_of_mem n (ih h4)

theorem dictGet_map_removeKey (l : List (PyStr × List (PyStr × Cb))) (n k : PyStr) :
    dictGet (l.map (fun p => (p.1, removeKey n p.2))) k = (dictGet l k).map (removeKey n) := by
  induction l with
  | nil => rfl
  | cons p rest ih =>
    by_cases h : p.1 = k
    · simp [dictGet, h]
    · simp [dictGet, h, ih]

/-! Lemmas about `unload` and the dispatch loop. -/

theorem strippedState_callbacks (st : ServerState) (name : PyStr) :
    (strippedState st name).callbacks = st.callbacks.map (fun p => (p.1, removeKey name p.2)) := rfl

theorem strippedState_data (st : ServerState) (name : PyStr) :
    (strippedState st name).callbackData = removeName name st.callbackData := rfl

theorem unload_total (st : ServerState) {name : PyStr} (h : name ≠ []) :
    ∃ st2, unload st name = .ok st2 := by
  match name, h with
  | c :: cs, _ =>
    by_cases hc : c = '_'
    · exact ⟨st, by simp [unload, hc]⟩
    · exact ⟨strippedState st (c :: cs), by simp [unload, hc]⟩

theorem unload_eq_cases {st : ServerState} {name : PyStr} {st2 : ServerState}
    (h : unload st name = .ok st2) : st2 = st ∨ st2 = strippedState st name := by
  match name with
  | [] => simp [unload] at h
  | c :: cs =>
    by_cases hc : c = '_'
    · left; simp [unload, hc] at h; exact h.symm
    · right; simp [unload, hc] at h; exact h.symm

/-- The name is not registered for any kind in the state. -/
def unregEverywhere (st : ServerState) (x : PyStr) : Prop :=
  ∀ k m, dictGet st.callbacks k = some m → dictGet m x = none

/-- The name is registered under the kind with this exact callback. -/
def regAs (st : ServerState) (kind x : PyStr) (cb : Cb) : Prop :=
  ∃ m, dictGet st.callbacks kind = some m ∧ dictGet m x = some cb

theorem strippedState_unreg_self (st : ServerState) (x : PyStr) :
    unregEverywhere (strippedState st x) x := by
  intro k m hm
  rw [strippedState_callbacks, dictGet_map_removeKey] at hm
  rcases h0 : dictGet st.callbacks k with _ | m0
  · rw [h0] at hm; simp at hm
  · rw [h0] at hm
    simp at hm
    rw [← hm]
    exact dictGet_removeKey_self m0 x

theorem strippedState_preserves_unreg {st : ServerState} {x n : PyStr}
    (h : unregEverywhere st x) : unregEverywhere (strippedState st n) x := by
  intro k m hm
  rw [strippedState_callbacks, dictGet_map_removeKey] at hm
  rcases h0 : dictGet st.callbacks k with _ | m0
  · rw [h0] at hm; simp at hm
  · rw [h0] at hm
    simp at hm
    rw [← hm]
    exact dictGet_removeKey_none n (h k m0 h0)

theorem strippedState_preserves_regAs {st : ServerState} {kind z n : PyStr} {cb : Cb}
    (hzn : z ≠ n) (h : regAs st kind z cb) : regAs (strippedState st n) kind z cb := by
  obtain ⟨m, hm, hz⟩ := h
  refine ⟨removeKey n m, ?_, ?_⟩
  · rw [strippedState_callbacks, dictGet_map_removeKey, hm]; rfl
  · rw [dictGet_removeKey_ne m hzn]; exact hz

theorem strippedState_preserves_data {st : ServerState} {z n : PyStr}
    (hzn : z ≠ n) (h : z ∈ st.callbackData) : z ∈ (strippedState st n).callbackData := by
  rw [strippedState_data]; exact mem_removeName h hzn

theorem failPath_total {n : PyStr} (inv : Bool) (st : ServerState) (hn : n ≠ []) :
    ∃ out, failPath inv st n = .ok out := by
  obtain ⟨st2, hu⟩ := unload_total st hn
  refine ⟨(st2, inv, true, []), ?_⟩
  unfold failPath
  rw [hu]

theorem failPath_state {inv : Bool} {st : ServerState} {n : PyStr}
    {st2 : ServerState} {a b : Bool} {l : List PyStr}
    (h : failPath inv st n = .ok (st2, a, b, l)) :
    st2 = st ∨ st2 = strippedState st n := by
  unfold failPath at h
  split at h
  · exact absurd h (by simp)
  · rename_i stU hu
    injection h with h2
    have h3 : stU = st2 := congrArg (fun t => t.1) h2
    rw [← h3]
    exact unload_eq_cases hu

theorem dispatchStep_total (runP : Nat → Event → Except Unit (List PyStr)) (e : Event)
    {n : PyStr} (st : ServerState) (hn : n ≠ []) :
    ∃ out, dispatchStep runP e n st = .ok out := by
  unfold dispatchStep
  split
  · exact failPath_total false st hn
  · split
    · exact failPath_total false st hn
    · split
      · split
        · exact ⟨_, rfl⟩
        · exact failPath_total true st hn
      · exact failPath_total false st hn

theorem dispatchStep_state {runP : Nat → Event → Except Unit (List PyStr)} {e : Event}
    {n : PyStr} {st st2 : ServerState} {inv rep : Bool} {snd : List PyStr}
    (h : dispatchStep runP e n st = .ok (st2, inv, rep, snd)) :
    st2 = st ∨ st2 = strippedState st n := by
  unfold dispatchStep at h
  split at h
  · exact failPath_state h
  · split at h
    · exact failPath_state h
    · split at h
      · split at h
        · injection h with h2
          have h3 : st = st2 := congrArg (fun t => t.1) h2
          exact Or.inl h3.symm
        · exact failPath_state h
      · exact failPath_state h

theorem dispatchLoop_total (runP : Nat → Event → Except Unit (List PyStr)) (e : Event) :
    ∀ {ns : List PyStr} (st : ServerState), (∀ n ∈ ns, n ≠ []) →
      ∃ res, dispatchLoop runP e ns st = .ok res := by
  intro ns
  induction ns with
  | nil => intro st _; exact ⟨⟨st, [], [], []⟩, rfl⟩
  | cons n rest ih =>
    intro st h
    obtain ⟨out, hout⟩ := dispatchStep_total runP e st (h n (List.mem_cons_self n rest))
    obtain ⟨st2, inv, rep, snd⟩ := out
    obtain ⟨res, hres⟩ := ih st2 (fun z hz => h z (List.mem_cons_of_mem n hz))
    exact ⟨⟨res.state, (if inv then [n] else []) ++ res.invoked,
            (if rep then [n] else []) ++ res.reported, snd ++ res.sends⟩,
           by simp only [dispatchLoop, hout, hres]⟩

theorem dispatchLoop_preserves_unreg {runP : Nat → Event → Except Unit (List PyStr)}
    {e : Event} {x : PyStr} :
    ∀ {ns : List PyStr} {st : ServerState} {res : DispatchResult},
      dispatchLoop runP e ns st = .ok res → unregEverywhere st x →
      unregEverywhere res.state x := by
  intro ns
  induction ns with
  | nil =>
    intro st res h hx
    simp only [dispatchLoop] at h
    injection h with h2
    rw [← h2]
    exact hx
  | cons n rest ih =>
    intro st res h hx
    simp only [dispatchLoop] at h
    split at h
    · exact absurd h (by simp)
    · rename_i st2 inv rep snd hstep
      split at h
      · exact absurd h (by simp)
      · rename_i res2 hloop
        injection h with h2
        rw [← h2]
        show unregEverywhere res2.state x
        have hx2 : unregEverywhere st2 x := by
          rcases dispatchStep_state hstep with h3 | h3
          · rw [h3]; exact hx
          · rw [h3]; exact strippedState_preserves_unreg hx
        exact ih hloop hx2

theorem dispatchLoop_invoked {runP : Nat → Event → Except Unit (List PyStr)} {e : Event}
    {y : PyStr} {cb : Cb} (hy0 : y ≠ []) :
    ∀ {ns : List PyStr} {st : ServerState} {res : DispatchResult},
      dispatchLoop runP e ns st = .ok res → y ∈ ns →
      regAs st e.type y cb → y ∈ st.callbackData → y ∈ res.invoked := by
  intro ns
  induction ns with
  | nil => intro st res _ hmem; simp at hmem
  | cons n rest ih =>
    intro st res h hmem hreg hdata
    simp only [dispatchLoop] at h
    split at h
    · exact absurd h (by simp)
    · rename_i st2 inv rep snd hstep
      split at h
      · exact absurd h (by simp)
      · rename_i res2 hloop
        injection h with h2
        rw [← h2]
        show y ∈ (if inv = true then [n] else []) ++ res2.invoked
        by_cases hny : n = y
        · subst hny
          obtain ⟨m, hm, hyc⟩ := hreg
          have hcont : st.callbackData.contains n = true := List.elem_eq_true_of_mem hdata
          simp only [dispatchStep, hm, hyc, hcont, if_true] at hstep
          rcases hrun : runCb runP cb e with _ | snd2
          · rw [hrun] at hstep
            obtain ⟨stU, hu⟩ := unload_total st hy0
            simp only [failPath, hu] at hstep
            injection hstep with h3
            have hinv : inv = true := by
              have h4 := congrArg (fun t => t.2.1) h3; simpa using h4
            rw [hinv]
            simp
          · rw [hrun] at hstep
            injection hstep with h3
            have hinv : inv = true := by
              have h4 := congrArg (fun t => t.2.1) h3; simpa using h4
            rw [hinv]
            simp
        · have hy2 : y ∈ rest := by
            rcases List.mem_cons.mp hmem with h4 | h4
            · exact absurd h4.symm hny
            · exact h4
          have hpres : regAs st2 e.type y cb ∧ y ∈ st2.callbackData := by
            rcases dispatchStep_state hstep with h3 | h3
            · rw [h3]; exact ⟨hreg, hdata⟩
            · rw [h3]
              exact ⟨strippedState_preserves_regAs (fun hh => hny hh.symm) hreg,
                     strippedState_preserves_data (fun hh => hny hh.symm) hdata⟩
          exact List.mem_append_right _ (ih hloop hy2 hpres.1 hpres.2)

theorem dispatchLoop_reports {runP : Nat → Event → Except Unit (List PyStr)} {e : Event}
    {x : PyStr} {cbX : Cb} (hx0 : x ≠ []) (hxp : x.head? ≠ some '_')
    (hfail : runCb runP cbX e = .error ()) :
    ∀ {ns : List PyStr} {st : ServerState} {res : DispatchResult},
      dispatchLoop runP e ns st = .ok res → x ∈ ns →
      regAs st e.type x cbX → x ∈ st.callbackData →
      x ∈ res.reported ∧ unregEverywhere res.state x := by
  intro ns
  induction ns with
  | nil => intro st res _ hmem; simp at hmem
  | cons n rest ih =>
    intro st res h hmem hreg hdata
    simp only [dispatchLoop] at h
    split at h
    · exact absurd h (by simp)
    · rename_i st2 inv rep snd hstep
      split at h
      · exact absurd h (by simp)
      · rename_i res2 hloop
        injection h with h2
        rw [← h2]
        have hgoal : x ∈ (if rep = true then [n] else []) ++ res2.reported ∧
            unregEverywhere res2.state x → x ∈ (if rep = true then [n] else []) ++ res2.reported ∧
            unregEverywhere res2.state x := id
        refine hgoal ?_
        by_cases hnx : n = x
        · subst hnx
          obtain ⟨m, hm, hxc⟩ := hreg
          have hcont : st.callbackData.contains n = true := List.elem_eq_true_of_mem hdata
          obtain ⟨c, cs, rfl⟩ : ∃ c cs, n = c :: cs := by
            match n, hx0 with
            | c :: cs, _ => exact ⟨c, cs, rfl⟩
          have hc : ¬ c = '_' := by
            intro hcc
            rw [hcc] at hxp
            exact hxp rfl
          have hu : unload st (c :: cs) = .ok (strippedState st (c :: cs)) := by
            simp only [unload]
            rw [if_neg hc]
          simp only [dispatchStep, hm, hxc, hcont, if_true, hfail, failPath, hu] at hstep
          injection hstep with h3
          have hst2 : st2 = strippedState st (c :: cs) := by
            have h4 := congrArg (fun t => t.1) h3; simpa using h4.symm
          have hrep : rep = true := by
            have h4 := congrArg (fun t => t.2.2.1) h3; simpa using h4
          constructor
          · rw [hrep]; simp
          · have hunreg : unregEverywhere st2 (c :: cs) := by
              rw [hst2]; exact strippedState_unreg_self st _
            exact dispatchLoop_preserves_unreg hloop hunreg
        · have hx2 : x ∈ rest := by
            rcases List.mem_cons.mp hmem with h4 | h4
            · exact absurd h4.symm hnx
            · exact h4
          have hpres : regAs st2 e.type x cbX ∧ x ∈ st2.callbackData := by
            rcases dispatchStep_state hstep with h3 | h3
            · rw [h3]; exact ⟨hreg, hdata⟩
            · rw [h3]
              exact ⟨strippedState_preserves_regAs (fun hh => hnx hh.symm) hreg,
                     strippedState_preserves_data (fun hh => hnx hh.symm) hdata⟩
          obtain ⟨hrep2, hunreg2⟩ := ih hloop hx2 hpres.1 hpres.2
          exact ⟨List.mem_append_right _ hrep2, hunreg2⟩

/-- Every registered name in the state is a nonempty string and owns a storage
cell — the shape `addHook` establishes for everything it registers. -/
def wellFormedState (st : ServerState) : Prop :=
  ∀ p ∈ st.callbacks, ∀ q ∈ p.2, q.1 ≠ [] ∧ q.1 ∈ st.callbackData

instance (st : ServerState) : Decidable (wellFormedState st) := by
  unfold wellFormedState
  infer_instance

/-! Concrete states and events used by the claim theorems below. -/

/-- A PING event as decoded from `PING` with the token srv123. -/
def pingEvent : Event := { type := "PING".toList, server := some ("srv123".toList) }

/-- The server state after `unload` has removed the built-in PING hook. -/
def pingRemovedState : ServerState :=
  { callbacks := [("PING".toList, [])], callbackData := [], modules := [] }

/-- Plugin behaviour in which plugin 0 raises and every other plugin returns
normally without sending anything. -/
def runFail0 : Nat → Event → Except Unit (List PyStr) :=
  fun n _ => if n = 0 then .error () else .ok []

/-- A PUBMSG event with no other fields, for exercising the dispatcher. -/
def pubEvent : Event := { type := "PUBMSG".toList }

/-- Registry with a protected raising handler and a later well-behaved one. -/
def stProtectedXY : ServerState :=
  addHook (addHook serverInit ("_X".toList) ("PUBMSG".toList) (Cb.plugin 0))
    ("Y".toList) ("PUBMSG".toList) (Cb.plugin 1)

/-- Registry with an unprotected raising handler X and a later handler Y. -/
def stPluginXY : ServerState :=
  addHook (addHook serverInit ("X".toList) ("PUBMSG".toList) (Cb.plugin 0))
    ("Y".toList) ("PUBMSG".toList) (Cb.plugin 1)

/-! The claims. -/

/-- Claim C3, counterexample.  The claim quantifies over every registered
handler name; for the protected name beginning with the underscore marker it
fails: dispatching a PUBMSG event where the raising handler is registered as
underscore-X reports the failure but leaves the state unchanged — the
underscore-X entry is still registered afterwards, and so is its storage
cell, because `unload` skips marked names. -/
theorem c3_counterexample :
    dispatch runFail0 stProtectedXY pubEvent =
      .ok ⟨stProtectedXY, ["_X".toList, "Y".toList], ["_X".toList], []⟩ ∧
    dictGet ((dictGet stProtectedXY.callbacks ("PUBMSG".toList)).getD []) ("_X".toList) =
      some (Cb.plugin 0) := by
  decide

/-- Claim C3, amended: for every handler name X that does not carry the
protective underscore prefix, registered (with a storage cell, as `addHook`
guarantees) for the kind of the event, whose callback raises during dispatch,
the dispatch loop returns normally, reports X, afterwards X is no longer
registered for any kind, and any other handler Y registered for the same kind
is still invoked with the same event. -/
theorem c3_handler_isolation (runP : Nat → Event → Except Unit (List PyStr))
    (st : ServerState) (e : Event) (X Y : PyStr) (m : List (PyStr × Cb)) (cbX cbY : Cb)
    (hwf : wellFormedState st)
    (hm : dictGet st.callbacks e.type = some m)
    (hX : dictGet m X = some cbX)
    (hY : dictGet m Y = some cbY)
    (hXY : X ≠ Y)
    (hXp : X.head? ≠ some '_')
    (hfail : runCb runP cbX e = .error ()) :
    ∃ res, dispatch runP st e = .ok res ∧
      X ∈ res.reported ∧ Y ∈ res.invoked ∧ unregEverywhere res.state X := by
  have hmemX : (X, cbX) ∈ m := dictGet_mem hX
  have hmemY : (Y, cbY) ∈ m := dictGet_mem hY
  have hpm : (e.type, m) ∈ st.callbacks := dictGet_mem hm
  have hXin : X ∈ m.map (fun p => p.1) := List.mem_map.mpr ⟨(X, cbX), hmemX, rfl⟩
  have hYin : Y ∈ m.map (fun p => p.1) := List.mem_map.mpr ⟨(Y, cbY), hmemY, rfl⟩
  have hnames : ∀ n ∈ m.map (fun p => p.1), n ≠ [] := by
    intro n hn
    obtain ⟨q, hq, hq2⟩ := List.mem_map.mp hn
    rw [← hq2]
    exact (hwf _ hpm q hq).1
  have hXdata : X ∈ st.callbackData := (hwf _ hpm _ hmemX).2
  have hYdata : Y ∈ st.callbackData := (hwf _ hpm _ hmemY).2
  have hX0 : X ≠ [] := (hwf _ hpm _ hmemX).1
  have hY0 : Y ≠ [] := (hwf _ hpm _ hmemY).1
  obtain ⟨res, hres⟩ := dispatchLoop_total runP e st hnames
  obtain ⟨hrep, hunreg⟩ :=
    dispatchLoop_reports hX0 hXp hfail hres hXin ⟨m, hm, hX⟩ hXdata
  refine ⟨res, ?_, hrep, ?_, hunreg⟩
  · simp only [dispatch, hm]
    exact hres
  · exact dispatchLoop_invoked hY0 hres hYin ⟨m, hm, hY⟩ hYdata

/-- Claim C3, witness: the amended theorem applied to the concrete registry
holding the raising plugin X and the later plugin Y for kind PUBMSG. -/
theorem c3_witness :
    ∃ res, dispatch runFail0 stPluginXY pubEvent = .ok res ∧
      "X".toList ∈ res.reported ∧ "Y".toList ∈ res.invoked ∧
      unregEverywhere res.state ("X".toList) :=
  c3_handler_isolation runFail0 stPluginXY pubEvent ("X".toList) ("Y".toList)
    [("X".toList, Cb.plugin 0), ("Y".toList, Cb.plugin 1)] (Cb.plugin 0) (Cb.plugin 1)
    (by decide) (by decide) (by decide) (by decide) (by decide) (by decide) rfl

/-- Claim C1.  Chunking-invariance fails on the code: the leftover assignment
on irc.py line 176 overwrites the stored fragment instead of appending to it,
so a line spanning three chunks loses its first fragment.  Feeding the chunks
abc, def, ghi-CRLF yields the single line defghi, while feeding the
concatenation as one chunk yields abcdefghi. -/
theorem c1_framer_drops_fragment :
    framerRun ["abc".toList, "def".toList, "ghi\r\n".toList] = ["defghi".toList] ∧
    "abc".toList ++ "def".toList ++ "ghi\r\n".toList = "abcdefghi\r\n".toList ∧
    framerRun ["abcdefghi\r\n".toList] = ["abcdefghi".toList] := by
  decide

/-- Claim C2, counterexample.  The single-token line FOO is decoded by
`parseLine` as an uncaught IndexError (the unguarded access to the second
token on irc.py line 88); the read loop does not catch it, so `connect`
re-establishes the connection, contradicting the claim that malformed lines
are treated as a non-fatal no-op. -/
theorem c2_counterexample :
    parseLine ("FOO".toList) = .error .indexError ∧
    lineFate ("FOO".toList) = .reconnect := by
  decide

/-- Claim C4, counterexample.  The built-in PING hook is registered under the
unprefixed name PING (irc.py line 30), so `unload` with that name is not a
no-op: it removes the hook and its storage cell, and a subsequent PING event
finds no callbacks and sends nothing. -/
theorem c4_counterexample :
    unload serverInit ("PING".toList) ≠ .ok serverInit ∧
    unload serverInit ("PING".toList) = .ok pingRemovedState ∧
    dispatch (fun _ _ => .ok []) pingRemovedState pingEvent =
      .ok ⟨pingRemovedState, [], [], []⟩ := by
  decide

/-- Claim C4, amended: only names that begin with the underscore marker are
protected — `unload` is a no-op exactly on those; the built-in PING entry is
registered under the unprefixed name PING, so unloading it removes the hook
(the PING kind keeps an empty dict) and afterwards a PING event is answered
by nothing. -/
theorem c4_ping_unprotected :
    (∀ (st : ServerState) (n : PyStr), n.head? = some '_' → unload st n = .ok st) ∧
    unload serverInit ("PING".toList) = .ok pingRemovedState ∧
    dictGet pingRemovedState.callbacks ("PING".toList) = some [] ∧
    dispatch (fun _ _ => .ok []) pingRemovedState pingEvent =
      .ok ⟨pingRemovedState, [], [], []⟩ := by
  refine ⟨?_, by decide, by decide, by decide⟩
  intro st n h
  match n, h with
  | c :: cs, h =>
    have hc : c = '_' := by simpa using h
    simp [unload, hc]

/-- Claim C4, witness: the protected-name clause of the amended theorem at the
concrete name underscore-Quit and the initial server state. -/
theorem c4_witness : unload serverInit ("_Quit".toList) = .ok serverInit :=
  c4_ping_unprotected.1 serverInit ("_Quit".toList) (by decide)

/-- Claim C5.  A PRIVMSG body consisting of the single CTCP delimiter byte
does index out of bounds: after both delimiter strips the body is empty, its
whitespace split is the empty list, and `ctcp[0]` (irc.py line 104) raises
IndexError instead of yielding an empty CTCP command. -/
theorem c5_ctcp_single_delim_raises :
    parseLine (":nick!ident@host PRIVMSG #chan :\x01".toList) = .error .indexError := by
  decide

/-- Claim C6.  Loading a module that has a name attribute but no types
attribute makes `load` itself raise: the except handler on irc.py lines
316-318 reports the failure but does not return, and the log line 320
accesses `module.types` again, so the AttributeError propagates out of the
call — contradicting the claim that load failures never propagate. -/
theorem c6_load_missing_types_raises :
    load serverInit ("m".toList)
      (some { mname := some ("m".toList), types := none,
              hookCode := some (Cb.plugin 0), init := none }) =
    .error .attributeError := by
  decide

/-- Claim C7.  Decoding the canonical public-message line yields a PUBMSG
event with the decomposed sender, the channel and the body. -/
theorem c7_pubmsg_decode :
    parseLine (":nick!ident@host PRIVMSG #chan :hello".toList) =
      .ok { type := "PUBMSG".toList,
            channel := some ("#chan".toList),
            ctcp := some false,
            action := some false,
            user := some { nick := "nick".toList, identified := false,
                           ident := "ident".toList, host := "host".toList },
            message := some ("hello".toList) } := by
  decide

/-- Claim C9, counterexample.  A raw line whose verb token is literally
PUBMSG falls through every recognized-verb branch, so the decoder returns an
event of kind PUBMSG built by the generic fallback — and that event carries
no sender. -/
theorem c9_counterexample :
    parseLine (":x PUBMSG y".toList) = .ok { type := "PUBMSG".toList } ∧
    ({ type := "PUBMSG".toList } : Event).user = none := by
  decide

/-- Claim C2, amended: a complete line whose token list is a single token
other than PING makes `parseLine` raise — deliberately for ERROR, through the
unguarded second-token access for every other verb — and since the read loop
wraps no handler around decoding, `connect` re-establishes the connection.
Malformed lines are not dropped as a no-op. -/
theorem c2_malformed_line_reconnects (line t : PyStr)
    (h1 : lineTokens line = [t]) (h2 : t ≠ "PING".toList) :
    lineFate line = .reconnect := by
  unfold lineFate parseLine
  rw [h1]
  simp only [List.get?]
  rw [if_neg h2]
  by_cases hE : t = "ERROR".toList
  · rw [if_pos hE]
  · rw [if_neg hE]

/-- Claim C2, witness: the amended theorem applied to the one-token line NOPE. -/
theorem c2_witness : lineFate ("NOPE".toList) = LineFate.reconnect :=
  c2_malformed_line_reconnects ("NOPE".toList) ("NOPE".toList) (by decide) (by decide)

theorem getD_mem : ∀ (l : PyStr) (n : Nat) (d : Char), n < l.length → l.getD n d ∈ l := by
  intro l
  induction l with
  | nil => intro n d h; simp at h
  | cons c rest ih =>
    intro n d h
    cases n with
    | zero => simp [List.getD]
    | succ k =>
      have hk : k < rest.length := by simpa using h
      rw [List.getD_cons_succ]
      exact List.mem_cons_of_mem c (ih k d hk)

theorem nickMaskMatches_chars {s : PyStr} (h : nickMaskMatches s = true) :
    '!' ∈ s ∧ '@' ∈ s := by
  unfold nickMaskMatches at h
  rw [List.any_eq_true] at h
  obtain ⟨p, hp, h⟩ := h
  rw [List.any_eq_true] at h
  obtain ⟨q, hq, h⟩ := h
  simp only [Bool.and_eq_true, decide_eq_true_eq] at h
  obtain ⟨⟨⟨⟨⟨⟨⟨h1, h2⟩, h3⟩, h4⟩, h5⟩, h6⟩, h7⟩, h8⟩ := h
  constructor
  · rw [← h4]; exact getD_mem s p ' ' (List.mem_range.mp hp)
  · rw [← h5]; exact getD_mem s q ' ' (List.mem_range.mp hq)

/-- Claim C8: a sender prefix that lacks an exclamation mark or lacks an at
sign cannot match the nick-mask pattern, so `parseUser` takes the fallback
branch without raising: the whole raw string becomes the nick, identified is
false, ident and host are empty. -/
theorem c8_malformed_mask_fallback (s : PyStr)
    (h : ('!' ∉ s) ∨ ('@' ∉ s)) :
    parseUser s = .ok { nick := s, identified := false, ident := [], host := [] } := by
  have hm : nickMaskMatches s = false := by
    cases hb : nickMaskMatches s
    · rfl
    · obtain ⟨hbang, hat⟩ := nickMaskMatches_chars hb
      rcases h with h | h
      · exact absurd hbang h
      · exact absurd hat h
  unfold parseUser
  rw [hm]
  simp

/-- Claim C8, witness: a server name used as the sender prefix. -/
theorem c8_witness :
    parseUser ("irc.example.net".toList) =
      .ok { nick := "irc.example.net".toList, identified := false,
            ident := [], host := [] } :=
  c8_malformed_mask_fallback ("irc.example.net".toList) (Or.inl (by decide))

theorem getD_append_length : ∀ (l₁ l₂ : PyStr) (c d : Char),
    (l₁ ++ c :: l₂).getD l₁.length d = c := by
  intro l₁
  induction l₁ with
  | nil => intro l₂ c d; rfl
  | cons a rest ih =>
    intro l₂ c d
    simp only [List.cons_append, List.length_cons, List.getD_cons_succ]
    exact ih l₂ c d

theorem contains_eq_false_of_not_mem {l : PyStr} {a : Char} (h : a ∉ l) :
    l.contains a = false := by
  cases hb : l.contains a
  · rfl
  · exact absurd (List.mem_of_elem_eq_true hb) h

theorem splitOnFirstChar_append {t : Char} : ∀ (l₁ l₂ : PyStr), t ∉ l₁ →
    splitOnFirstChar t (l₁ ++ t :: l₂) = (l₁, some l₂) := by
  intro l₁
  induction l₁ with
  | nil =>
    intro l₂ _
    simp [splitOnFirstChar]
  | cons a rest ih =>
    intro l₂ h
    have ha : ¬ a = t := by
      intro hh
      rw [hh] at h
      exact h (List.mem_cons_self t rest)
    simp only [List.cons_append, splitOnFirstChar, if_neg ha, List.append_eq]
    rw [ih l₂ (fun hm => h (List.mem_cons_of_mem a hm))]

theorem lstripSet_append (cs : PyStr) : ∀ (l₁ l₂ : PyStr),
    lstripSet cs (l₁ ++ l₂) =
      if lstripSet cs l₁ = [] then lstripSet cs l₂ else lstripSet cs l₁ ++ l₂ := by
  intro l₁
  induction l₁ with
  | nil => intro l₂; simp [lstripSet]
  | cons a rest ih =>
    intro l₂
    by_cases h : cs.contains a = true
    · simp only [List.cons_append, lstripSet, h, if_true]
      exact ih l₂
    · have h2 : cs.contains a = false := by simpa using h
      have h3 : a ∉ cs := by
        intro hm
        have ht : List.contains cs a = true := List.elem_eq_true_of_mem hm
        rw [ht] at h2
        cases h2
      simp [lstripSet, h3]

theorem mem_of_mem_lstripSet {cs : PyStr} {x : Char} : ∀ {l : PyStr},
    x ∈ lstripSet cs l → x ∈ l := by
  intro l
  induction l with
  | nil => intro h; simpa [lstripSet] using h
  | cons a rest ih =>
    intro h
    by_cases hc : cs.contains a = true
    · simp only [lstripSet, hc, if_true] at h
      exact List.mem_cons_of_mem a (ih h)
    · have h2 : cs.contains a = false := by simpa using hc
      simp only [lstripSet, h2] at h
      simpa using h

/-- Splitting at the first at sign commutes with the tilde strip when the
ident part contains no at sign. -/
theorem splitAt_lstrip_tilde (id2 host : PyStr) (h : '@' ∉ id2) :
    splitOnFirstChar '@' (lstripSet ['~'] (id2 ++ '@' :: host)) =
      (lstripSet ['~'] id2, some host) := by
  rw [lstripSet_append]
  by_cases h0 : lstripSet ['~'] id2 = []
  · rw [if_pos h0, h0]
    simp [lstripSet, splitOnFirstChar]
  · rw [if_neg h0]
    exact splitOnFirstChar_append _ host (fun hm => h (mem_of_mem_lstripSet hm))

/-- The nick-mask pattern accepts every hostmask of the shape
nick-bang-ident-at-host with nonempty newline-free parts. -/
theorem nickMask_of_shape (nick ident host : PyStr)
    (hn : nick ≠ []) (hi : ident ≠ []) (hh : host ≠ [])
    (hn3 : '\n' ∉ nick) (hi3 : '\n' ∉ ident) (hh3 : '\n' ∉ host) :
    nickMaskMatches (nick ++ '!' :: (ident ++ '@' :: host)) = true := by
  have h1 : 0 < nick.length := List.length_pos.mpr hn
  have h2 : 0 < ident.length := List.length_pos.mpr hi
  have h3 : 0 < host.length := List.length_pos.mpr hh
  have hlen : (nick ++ '!' :: (ident ++ '@' :: host)).length
      = nick.length + 1 + ident.length + 1 + host.length := by
    simp
    omega
  unfold nickMaskMatches
  rw [List.any_eq_true]
  refine ⟨nick.length, List.mem_range.mpr ?_, ?_⟩
  · rw [hlen]; omega
  rw [List.any_eq_true]
  refine ⟨nick.length + 1 + ident.length, List.mem_range.mpr ?_, ?_⟩
  · rw [hlen]; omega
  simp only [Bool.and_eq_true, decide_eq_true_eq, Bool.not_eq_true']
  refine ⟨⟨⟨⟨⟨⟨⟨?_, ?_⟩, ?_⟩, ?_⟩, ?_⟩, ?_⟩, ?_⟩, ?_⟩
  · omega
  · omega
  · rw [hlen]; omega
  · exact getD_append_length nick _ '!' ' '
  · have hassoc : nick ++ '!' :: (ident ++ '@' :: host)
        = (nick ++ '!' :: ident) ++ '@' :: host := by simp
    have hq : nick.length + 1 + ident.length = (nick ++ '!' :: ident).length := by
      simp; omega
    rw [hassoc, hq]
    exact getD_append_length _ _ '@' ' '
  · have ht : (nick ++ '!' :: (ident ++ '@' :: host)).take nick.length = nick := by
      rw [List.take_left]
    rw [ht]
    exact contains_eq_false_of_not_mem hn3
  · have hassoc : nick ++ '!' :: (ident ++ '@' :: host)
        = (nick ++ '!' :: ident) ++ '@' :: host := by simp
    have hq : nick.length + 1 + ident.length = (nick ++ '!' :: ident).length := by
      simp; omega
    rw [hassoc, hq, List.take_left]
    have hassoc2 : nick ++ '!' :: ident = (nick ++ ['!']) ++ ident := by simp
    have hlen2 : nick.length + 1 = (nick ++ ['!']).length := by simp
    rw [hassoc2, hlen2, List.drop_left]
    exact contains_eq_false_of_not_mem hi3
  · obtain ⟨h0, hrest, rfl⟩ : ∃ a l, host = a :: l := by
      cases host with
      | nil => exact absurd rfl hh
      | cons a l => exact ⟨a, l, rfl⟩
    have hassoc : nick ++ '!' :: (ident ++ '@' :: h0 :: hrest)
        = ((nick ++ '!' :: ident) ++ ['@']) ++ h0 :: hrest := by simp
    have hlq : nick.length + 1 + ident.length + 1
        = ((nick ++ '!' :: ident) ++ ['@']).length := by simp; omega
    rw [hassoc, hlq, getD_append_length]
    simp only [decide_eq_false_iff_not]
    intro hc
    exact hh3 (by rw [← hc]; exact List.mem_cons_self h0 hrest)

/-- Claim C10: on a well-formed hostmask the decoder sets identified exactly
when the ident portion begins with a tilde; in that case the returned ident
has every leading tilde removed, otherwise it is returned unchanged (and the
nick and host components are returned verbatim). -/
theorem c10_tilde_ident (nick ident host : PyStr)
    (hn : nick ≠ []) (hi : ident ≠ []) (hh : host ≠ [])
    (hbang : '!' ∉ nick) (hat : '@' ∉ ident)
    (hn3 : '\n' ∉ nick) (hi3 : '\n' ∉ ident) (hh3 : '\n' ∉ host) :
    parseUser (nick ++ '!' :: (ident ++ '@' :: host)) =
      .ok { nick := nick,
            identified := decide (ident.head? = some '~'),
            ident := if ident.head? = some '~' then lstripSet ['~'] ident else ident,
            host := host } := by
  have hmatch := nickMask_of_shape nick ident host hn hi hh hn3 hi3 hh3
  unfold parseUser
  rw [hmatch, if_pos rfl, splitOnFirstChar_append nick (ident ++ '@' :: host) hbang]
  obtain ⟨i0, irest, rfl⟩ : ∃ a l, ident = a :: l := by
    cases ident with
    | nil => exact absurd rfl hi
    | cons a l => exact ⟨a, l, rfl⟩
  by_cases hI : i0 = '~'
  · subst hI
    simp only [List.cons_append, List.head?, ite_true, if_true]
    rw [show ('~' :: (irest ++ '@' :: host)) = ('~' :: irest) ++ '@' :: host from by simp]
    rw [splitAt_lstrip_tilde ('~' :: irest) host hat]
  · simp only [List.cons_append, List.head?, Option.some.injEq, if_neg hI]
    rw [show (i0 :: (irest ++ '@' :: host)) = (i0 :: irest) ++ '@' :: host from by simp]
    rw [splitOnFirstChar_append (i0 :: irest) host hat]

/-- The six message kinds named by the sender invariant. -/
def msgKinds : List PyStr :=
  ["PUBMSG".toList, "PRIVMSG".toList, "NOTICE".toList,
   "JOIN".toList, "PART".toList, "QUIT".toList]

/-- Claim C9, amended: every event the decoder produces whose kind is
PRIVMSG, NOTICE, JOIN, PART or QUIT carries a non-null sender, and so does
every PUBMSG event except the one produced by the unknown-verb fallback —
which can only happen when the line's verb token is literally PUBMSG, and
then the sender is null. -/
theorem c9_sender_invariant (line : PyStr) (e : Event)
    (hok : parseLine line = .ok e) (hk : e.type ∈ msgKinds) :
    e.user.isSome = true ∨
      (e.type = "PUBMSG".toList ∧
       (lineTokens line).get? 1 = some ("PUBMSG".toList) ∧
       e.user = none) := by
  unfold parseLine at hok
  repeat' split at hok
  all_goals try (exact Except.noConfusion hok)
  all_goals (injection hok with hinj; subst hinj)
  all_goals try (exact Or.inl rfl)
  all_goals try (exact absurd hk (of_decide_eq_false rfl))
  rename_i t1x h1x hPR hNO hJO hPA hQU
  simp only [msgKinds, List.mem_cons, List.mem_singleton, List.mem_nil_iff, or_false] at hk
  rcases hk with h | h | h | h | h | h
  · refine Or.inr ⟨h, ?_, rfl⟩
    rw [← h]
    exact h1x
  · exact absurd h hPR
  · exact absurd h hNO
  · exact absurd h hJO
  · exact absurd h hPA
  · exact absurd h hQU

/-- Claim C9, witness: the amended theorem at a QUIT line with a full
hostmask; the decoded event carries the decomposed sender. -/
theorem c9_witness :
    ({ type := "QUIT".toList,
       user := some { nick := "a".toList, identified := false,
                      ident := "b".toList, host := "c".toList },
       message := some ("bye".toList) } : Event).user.isSome = true ∨
    (({ type := "QUIT".toList,
        user := some { nick := "a".toList, identified := false,
                       ident := "b".toList, host := "c".toList },
        message := some ("bye".toList) } : Event).type = "PUBMSG".toList ∧
     (lineTokens (":a!b@c QUIT :bye".toList)).get? 1 = some ("PUBMSG".toList) ∧
     ({ type := "QUIT".toList,
        user := some { nick := "a".toList, identified := false,
                       ident := "b".toList, host := "c".toList },
        message := some ("bye".toList) } : Event).user = none) :=
  c9_sender_invariant (":a!b@c QUIT :bye".toList) _ (by decide) (by decide)

/-- Claim C10, witness: the theorem applied to the concrete hostmask with a
doubly tilde-marked ident. -/
theorem c10_witness :
    parseUser ("n".toList ++ '!' :: ("~~u".toList ++ '@' :: "h".toList)) =
      .ok { nick := "n".toList, identified := true,
            ident := "u".toList, host := "h".toList } := by
  rw [c10_tilde_ident "n".toList "~~u".toList "h".toList (by decide) (by decide)
    (by decide) (by decide) (by decide) (by decide) (by decide) (by decide)]
  decide

end Irc
